import Mathlib

/-!
Verification development for the jrsonnet evaluator core.

Shallow embedding of the relevant parts of the source tree:
* `crates/jrsonnet-evaluator/src/val.rs` — lazy thunks (`LazyVal`),
  values (`Val`), arrays (`ArrValue`), `new_checked_num`,
  `primitive_equals`, `Val::manifest`;
* `crates/jrsonnet-evaluator/src/evaluate/mod.rs` — the `Expr::Index`,
  `Expr::Arr` and `Expr::ArrComp` arms of `evaluate`;
* `crates/jrsonnet-evaluator/src/stdlib/manifest.rs` — JSON/YAML
  manifesters and `escape_string_json_buf`;
* `crates/jrsonnet-evaluator/src/function/parse.rs` — `parse_function_call`;
* `crates/jrsonnet-interner/src/lib.rs` — the interning pool.

Machine floats (`f64`) are embedded as an inductive `F64` carrying exact
rationals in the finite case; rounding of arithmetic on finite values is
not modelled (no claim below depends on rounding), while the special
values (infinities, NaN) and the saturating `as usize` cast follow the
IEEE-754 / Rust cast semantics exactly.
-/

namespace Jrsonnet

/-- Value kinds, mirroring `jrsonnet_types::ValType` (referenced from the
sources; used only as payload of type errors). -/
inductive ValType where
  | bool | null | str | num | arr | obj | func
  deriving DecidableEq, Repr

/-- Error kinds. The enum declaration (`error.rs`) is not among the
provided sources; the constructors below are the ones constructed by the
provided sources, plus `Overflow`, which is modelled from the spec
(§7 lists *Overflow (non-finite number)* as a variant) so that claims
about it are statable. -/
inductive Error where
  | RuntimeError (msg : String)
  | RecursiveLazyValueEvaluation
  | Overflow
  | FractionalIndex
  | ArrayBoundsError (index : Nat) (len : Nat)
  | StringBoundsError (index : Nat) (len : Nat)
  | TooManyArgsFunctionHas (maxArgs : Nat)
  | UnknownFunctionParameter (name : String)
  | BindingParameterASecondTime (name : String)
  | FunctionParameterNotBoundInCall (name : String)
  | StreamManifestOutputIsNotAArray
  | StreamManifestOutputCannotBeRecursed
  | StreamManifestCannotNestString
  | StringManifestOutputIsNotAString
  | MultiManifestOutputIsNotAObject
  | ValueIndexMustBeTypeGot (indexed : ValType) (expected : ValType) (got : ValType)
  | AttemptedIndexAnArrayWithString (name : String)
  | CantIndexInto (ty : ValType)
  /-- Models the `unreachable!()` panic at the end of the unbound-parameter
  scan in `parse_function_call`; never produced on reachable paths. -/
  | InternalUnreachable
  deriving DecidableEq, Repr

/-! ## `f64` model -/

/-- A 64-bit IEEE-754 float, with the finite case carried exactly as a
rational (rounding of finite arithmetic is not modelled). -/
inductive F64 where
  | finite (q : ℚ)
  | inf
  | negInf
  | nan
  deriving DecidableEq, Repr

namespace F64

/-- `f64::is_finite`. -/
def isFinite : F64 → Bool
  | finite _ => true
  | _ => false

/-- `f64::EPSILON = 2⁻⁵²`. -/
def epsilon : ℚ := 1 / 4503599627370496

/-- Truncation toward zero of a rational, as Rust's `f64::trunc`. -/
def ratTrunc (q : ℚ) : ℤ := if 0 ≤ q then ⌊q⌋ else -⌊-q⌋

/-- `f64::fract`: `self - self.trunc()`; NaN for non-finite input
(`inf.fract()` is NaN in Rust). -/
def fract : F64 → F64
  | finite q => finite (q - ratTrunc q)
  | _ => nan

/-- `usize::MAX` (64-bit target). -/
def usizeMax : Nat := 18446744073709551615

/-- Rust `as usize` cast of an `f64`: rounds toward zero and saturates to
`[0, usize::MAX]`; NaN casts to 0. -/
def castUsize : F64 → Nat
  | finite q => min (ratTrunc q).toNat usizeMax
  | inf => usizeMax
  | negInf => 0
  | nan => 0

/-- IEEE-754 subtraction on the model (exact in the finite case). -/
def sub : F64 → F64 → F64
  | nan, _ => nan
  | _, nan => nan
  | inf, inf => nan
  | inf, _ => inf
  | negInf, negInf => nan
  | negInf, _ => negInf
  | finite _, inf => negInf
  | finite _, negInf => inf
  | finite p, finite q => finite (p - q)

/-- IEEE-754 absolute value. -/
def abs : F64 → F64
  | finite q => finite |q|
  | inf => inf
  | negInf => inf
  | nan => nan

/-- IEEE-754 `<=`: any comparison involving NaN is false. -/
def leBool : F64 → F64 → Bool
  | nan, _ => false
  | _, nan => false
  | negInf, _ => true
  | _, negInf => false
  | _, inf => true
  | inf, _ => false
  | finite p, finite q => decide (p ≤ q)

/-- IEEE-754 `>`: any comparison involving NaN is false. -/
def gtBool (a b : F64) : Bool := leBool b a && !(a == b)

end F64

/-! ## Values, arrays and thunks

From `val.rs`. `LazyValInternals` is the state cell guarded by the
`RefCell` in `LazyVal`; the producer boxed in the `Waiting` state is
modelled by the result it returns when invoked (`ProducerResult`), which
suffices because (as proved below) it is invoked at most once. -/

mutual

/-- `Val` from `val.rs`. Strings are interned `IStr` in the source; content
equality of interned strings coincides with handle equality (see the
interner section), so plain `String` is carried here. The object value
implementation (`obj.rs`) is not among the provided sources; per the spec
(§3.3, §4.8) an object manifests via its sorted field list, so `obj`
carries its field table directly (object assertions are not modelled; no
claim below touches them). -/
inductive Val where
  | bool (b : Bool)
  | null
  | str (s : String)
  | num (n : F64)
  | arr (a : ArrValue)
  | obj (fields : List (String × Val))
  | func (name : String)

/-- `ArrValue` from `val.rs`: lazy element cells, eager values, or the
concatenation shape. -/
inductive ArrValue where
  | lazy (cells : List LazyValInternals)
  | eager (elems : List Val)
  | extended (left : ArrValue) (right : ArrValue)

/-- `LazyValInternals` from `val.rs`. `Pending` is the marker installed
by `mem::replace` for the duration of the producer run (the spec calls
this state `Forcing`); `Waiting` is the initial not-yet-forced state. -/
inductive LazyValInternals where
  | Computed (v : Val)
  | Errored (e : Error)
  | Waiting (producer : ProducerResult)
  | Pending

/-- The outcome the boxed producer yields when invoked. -/
inductive ProducerResult where
  | ok (v : Val)
  | err (e : Error)

end

/-- Invoking the producer boxed in a `Waiting` cell. -/
def ProducerResult.run : ProducerResult → Except Error Val
  | .ok v => .ok v
  | .err e => .error e

/-- `LazyVal::evaluate` from `val.rs`, instrumented: returns the result,
the state the cell is left in, and the number of producer invocations
performed. The source takes `&self` and mutates through the `RefCell`; the
returned state is the cell's content after the call. While the producer of
a `Waiting` cell runs, the cell holds `Pending` (installed by
`mem::replace`), so a re-entrant call lands in the `Pending` arm. -/
def LazyValInternals.evaluate : LazyValInternals → Except Error Val × LazyValInternals × Nat
  | .Computed v => (.ok v, .Computed v, 0)
  | .Errored e => (.error e, .Errored e, 0)
  | .Pending => (.error .RecursiveLazyValueEvaluation, .Pending, 0)
  | .Waiting f =>
    match f.run with
    | .ok v => (.ok v, .Computed v, 1)
    | .error e => (.error e, .Errored e, 1)

/-- Result component of a force, for use where the source calls
`item.evaluate()?` on an array cell. -/
def LazyValInternals.evaluateRes (c : LazyValInternals) : Except Error Val :=
  c.evaluate.1

/-- `ArrValue::len` from `val.rs`. -/
def ArrValue.len : ArrValue → Nat
  | .lazy l => l.length
  | .eager e => e.length
  | .extended a b => a.len + b.len

/-- `ArrValue::get` from `val.rs`: lazy cells are forced on access,
eager elements returned directly, concatenations split on the left
length. -/
def ArrValue.get : ArrValue → Nat → Except Error (Option Val)
  | .lazy vec, index =>
    match vec.get? index with
    | some v => v.evaluateRes.map some
    | none => .ok none
  | .eager vec, index => .ok (vec.get? index)
  | .extended a b, index =>
    if a.len > index then a.get index else b.get (index - a.len)

/-- The sequence of results `ArrValue::iter` yields (`val.rs:263-269`):
index order over the logical elements, forcing lazy cells. -/
def ArrValue.iterResults : ArrValue → List (Except Error Val)
  | .lazy cells => cells.map LazyValInternals.evaluateRes
  | .eager vs => vs.map Except.ok
  | .extended a b => a.iterResults ++ b.iterResults

/-- `Val::value_type` from `val.rs`. -/
def Val.value_type : Val → ValType
  | .str _ => .str
  | .num _ => .num
  | .arr _ => .arr
  | .obj _ => .obj
  | .bool _ => .bool
  | .null => .null
  | .func _ => .func

/-- `is_function_like` from `val.rs`. -/
def is_function_like : Val → Bool
  | .func _ => true
  | _ => false

/-! ## `new_checked_num` (`val.rs:399-407`) -/

/-- `Val::new_checked_num`: `if num.is_finite() { Ok(Num) } else {
throw!(RuntimeError("overflow")) }`. -/
def Val.new_checked_num (num : F64) : Except Error Val :=
  if num.isFinite then .ok (.num num) else .error (.RuntimeError "overflow")

/-! ## `primitive_equals` (`val.rs:575-593`)

The source matches `(val_a, val_b)` in order: the same-kind primitive
arms, then `(Arr, Arr)`, `(Obj, Obj)`, the function guard, and a
catch-all returning `false`. -/

/-- Native implementation of `std.primitiveEquals` from `val.rs`. -/
def primitive_equals (val_a val_b : Val) : Except Error Bool :=
  match val_a, val_b with
  | .bool a, .bool b => .ok (a == b)
  | .null, .null => .ok true
  | .str a, .str b => .ok (a == b)
  | .num a, .num b => .ok (F64.leBool (a.sub b).abs (.finite F64.epsilon))
  | .arr _, .arr _ =>
    .error (.RuntimeError "primitiveEquals operates on primitive types, got array")
  | .obj _, .obj _ =>
    .error (.RuntimeError "primitiveEquals operates on primitive types, got object")
  | .func _, .func _ =>
    .error (.RuntimeError "cannot test equality of functions")
  | _, _ => .ok false

/-! ## The `Expr::Index` arms for arrays and strings
(`evaluate/mod.rs:488-514`) -/

/-- The `(Val::Arr(v), Val::Num(n))` arm of `evaluate` for `Expr::Index`:
reject fractional parts above `f64::EPSILON`, then `v.get(n as usize)`
with a bounds error when absent. -/
def evaluateIndexArrNum (v : ArrValue) (n : F64) : Except Error Val :=
  if F64.gtBool n.fract (.finite F64.epsilon) then .error .FractionalIndex
  else
    match v.get n.castUsize with
    | .error e => .error e
    | .ok (some value) => .ok value
    | .ok none => .error (.ArrayBoundsError n.castUsize v.len)

/-- The `(Val::Str(s), Val::Num(n))` arm of `evaluate` for `Expr::Index`:
`s.chars().skip(n as usize).take(1)`, with a bounds error when empty. -/
def evaluateIndexStrNum (s : String) (n : F64) : Except Error Val :=
  let v := (s.data.drop n.castUsize).take 1
  if v.isEmpty then .error (.StringBoundsError n.castUsize s.data.length)
  else .ok (.str (String.mk v))

/-! ## The `Expr::Arr` and `Expr::ArrComp` arms
(`evaluate/mod.rs:534-563`)

Each source element expression, evaluated in its (extended) context, is
modelled by the `ProducerResult` it yields; for the comprehension the
list is the per-iteration element evaluations produced by
`evaluate_comp`. -/

/-- The `Expr::Arr` arm: one fresh thunk per element, collected into a
`Lazy` array; nothing is evaluated at construction. -/
def evaluateArrLiteral (items : List ProducerResult) : Except Error Val :=
  .ok (.arr (.lazy (items.map .Waiting)))

/-- The element-evaluation loop of the `Expr::ArrComp` arm:
`out.push(evaluate(...)?)` per iteration, the first error propagating. -/
def runAll : List ProducerResult → Except Error (List Val)
  | [] => .ok []
  | f :: rest => do
    let v ← f.run
    let vs ← runAll rest
    return v :: vs

/-- The `Expr::ArrComp` arm: every iteration's element expression is
evaluated on the spot, collected into an `Eager` array. -/
def evaluateArrComp (items : List ProducerResult) : Except Error Val :=
  (runAll items).map fun vs => .arr (.eager vs)

/-! ## The interner (`jrsonnet-interner/src/lib.rs`)

The thread-local `POOL` maps unique byte buffers to their backing
allocation; a handle (`IStr`/`IBytes`) is identified by the backing
pointer, modelled as a `Nat` address. `Drop`-driven eviction is not
modelled: the claim under study quantifies over handles that are both
live, and eviction only happens after every external handle is dropped. -/

/-- The interner pool: byte content (`List Nat`, one entry per byte) to
backing-pointer address, plus the next fresh address. -/
structure Pool where
  entries : List (List Nat × Nat)
  next : Nat

/-- Pool well-formedness: every stored address is below `next`, and
distinct entries have distinct contents and distinct addresses (the hash
map keys buffers by content; each unique buffer has a unique
allocation). -/
def Pool.WF (p : Pool) : Prop :=
  (∀ e ∈ p.entries, e.2 < p.next) ∧
  p.entries.Pairwise fun a b => a.1 ≠ b.1 ∧ a.2 ≠ b.2

/-- `intern_bytes` (`lib.rs:227-242`): an occupied entry returns a clone
of the pooled allocation; a vacant entry inserts a fresh allocation. -/
def intern_bytes (p : Pool) (bytes : List Nat) : Nat × Pool :=
  match p.entries.find? (fun e => e.1 == bytes) with
  | some e => (e.2, p)
  | none => (p.next, ⟨(bytes, p.next) :: p.entries, p.next + 1⟩)

/-- The address the pool currently associates with `bytes`, if any. -/
def lookupPtr (p : Pool) (bytes : List Nat) : Option Nat :=
  (p.entries.find? (fun e => e.1 == bytes)).map (·.2)

/-- A sequence of intern calls, returning the final pool. -/
def internSeq (p : Pool) : List (List Nat) → Pool
  | [] => p
  | c :: cs => internSeq (intern_bytes p c).2 cs

/-- `IStr::eq` / `IBytes::eq` (`lib.rs:55-60`): `Inner::ptr_eq` on the
backing pointers. -/
def istrEq (a b : Nat) : Bool := a == b

/-- `IStr::hash` (`lib.rs:68-73`): `state.write_usize` of the backing
pointer address. -/
def istrHash (ptr : Nat) : Nat := ptr

/-! ## JSON string escaping (`stdlib/manifest.rs:148-167`)

The output buffer is modelled as the list of characters pushed. -/

/-- Lowercase hexadecimal digit, as produced by Rust's `{:x}`. -/
def hexDigit (n : Nat) : Char :=
  if n < 10 then Char.ofNat (48 + n) else Char.ofNat (87 + n)

/-- Rust `{:04x}` formatting for values below `0x10000` (escaped code
points here are at most 159). -/
def hex4 (n : Nat) : List Char :=
  [hexDigit (n / 4096 % 16), hexDigit (n / 256 % 16),
   hexDigit (n / 16 % 16), hexDigit (n % 16)]

/-- One iteration of the `escape_string_json_buf` character loop: the
seven short escapes, then `\u{:04x}` for other code points below 32 or
in `127..=159`, every other character unchanged. -/
def escape_char_json (c : Char) : List Char :=
  if c = Char.ofNat 34 then [Char.ofNat 92, Char.ofNat 34]
  else if c = Char.ofNat 92 then [Char.ofNat 92, Char.ofNat 92]
  else if c = Char.ofNat 8 then [Char.ofNat 92, Char.ofNat 98]
  else if c = Char.ofNat 12 then [Char.ofNat 92, Char.ofNat 102]
  else if c = Char.ofNat 10 then [Char.ofNat 92, Char.ofNat 110]
  else if c = Char.ofNat 13 then [Char.ofNat 92, Char.ofNat 114]
  else if c = Char.ofNat 9 then [Char.ofNat 92, Char.ofNat 116]
  else if c.toNat < 32 ∨ (127 ≤ c.toNat ∧ c.toNat ≤ 159) then
    Char.ofNat 92 :: Char.ofNat 117 :: hex4 c.toNat
  else [c]

/-- `escape_string_json_buf` (`manifest.rs:148-167`): opening quote, the
escaped characters, closing quote. -/
def escape_string_json_chars (s : String) : List Char :=
  Char.ofNat 34 :: (s.data.map escape_char_json).flatten ++ [Char.ofNat 34]

/-- `escape_string_json` (`manifest.rs:142-146`): the buffer as a
string. -/
def escape_string_json (s : String) : String :=
  String.mk (escape_string_json_chars s)

/-- The escaping table as the claim words it: short escapes for the
seven special characters, `\u00XX` (two literal zeros and the two-digit
hex of the code point) for the remaining code points below 32 or in
`127..=159`, all other characters unchanged. -/
def escapeCharClaim (c : Char) : List Char :=
  if c = Char.ofNat 34 then [Char.ofNat 92, Char.ofNat 34]
  else if c = Char.ofNat 92 then [Char.ofNat 92, Char.ofNat 92]
  else if c = Char.ofNat 8 then [Char.ofNat 92, Char.ofNat 98]
  else if c = Char.ofNat 12 then [Char.ofNat 92, Char.ofNat 102]
  else if c = Char.ofNat 10 then [Char.ofNat 92, Char.ofNat 110]
  else if c = Char.ofNat 13 then [Char.ofNat 92, Char.ofNat 114]
  else if c = Char.ofNat 9 then [Char.ofNat 92, Char.ofNat 116]
  else if c.toNat < 32 ∨ (127 ≤ c.toNat ∧ c.toNat ≤ 159) then
    [Char.ofNat 92, Char.ofNat 117, Char.ofNat 48, Char.ofNat 48,
     hexDigit (c.toNat / 16), hexDigit (c.toNat % 16)]
  else [c]

/-! ## `parse_function_call` (`function/parse.rs:41-144`)

Parameters are modelled as identifier patterns with an optional default
(the destructuring code, `destructure.rs`, is not among the provided
sources; per the spec §4.6 parameters are bound by name, and `destruct`
on an identifier pattern inserts that single name). Argument values and
the produced thunks play no role in the claim under study, so the bound
context is modelled by the list of bound parameter names; named
arguments are their names in iteration order, positional arguments their
count. -/

/-- A function parameter: its name and whether a default expression is
present (`params[i].1.is_some()`). -/
structure Param where
  name : String
  hasDefault : Bool
  deriving DecidableEq, Repr

/-- The named-argument loop of `parse_function_call`
(`parse.rs:69-79`): unknown names fail first, then duplicates against
the accumulated `passed_args`. -/
def bindNamed (params : List Param) : List String → List String →
    Except Error (List String)
  | [], passed => .ok passed
  | name :: rest, passed =>
    if ¬ params.any (fun p => p.name == name) then
      .error (.UnknownFunctionParameter name)
    else if name ∈ passed then
      .error (.BindingParameterASecondTime name)
    else
      bindNamed params rest (name :: passed)

/-- `parse_function_call` (`parse.rs:41-144`). Positional arguments bind
the first `posCount` parameter names (`unnamed_iter`/`destruct`); the
named loop is `bindNamed` with `filled_named = named.length`; defaults
fill parameters with a default that are not already passed; any count
mismatch left scans `params[posCount..]` for the first parameter not
named in the call and reports it unbound. -/
def parse_function_call (params : List Param) (posCount : Nat)
    (named : List String) : Except Error (List String) :=
  if posCount > params.length then
    .error (.TooManyArgsFunctionHas params.length)
  else
    match bindNamed params named ((params.take posCount).map Param.name) with
    | .error e => .error e
    | .ok passed =>
      if named.length + posCount < params.length then
        if named.length + posCount +
            (params.filter fun p =>
              p.hasDefault && !(passed.contains p.name)).length ≠
            params.length then
          match (params.drop posCount).find?
              (fun p => !(named.contains p.name)) with
          | some p => .error (.FunctionParameterNotBoundInCall p.name)
          | none => .error .InternalUnreachable
        else
          .ok (passed ++ (params.filter fun p =>
            p.hasDefault && !(passed.contains p.name)).map Param.name)
      else .ok passed

/-! ## JSON manifestation (`stdlib/manifest.rs:6-140`)

The buffer threading of the source is modelled by returning the chunk a
call appends; on error the source returns `Err` and the partially
written buffer is discarded by `manifest_json_ex`, so results agree.
`Val::Num` display (`write!("{}", n)`) is Rust's float `Display`:
integral values print without a fractional part; the shortest-roundtrip
decimal rendering of non-integral values is floating-point formatting
outside this model (no claim depends on it). Object assertions
(`run_assertions`, in the absent `obj.rs`) are not modelled. -/

/-- `ManifestType` from `manifest.rs`. -/
inductive ManifestType where
  | manifest | std | toStringMode | minify
  deriving DecidableEq, Repr

/-- `ManifestJsonOptions` from `manifest.rs`. -/
structure ManifestJsonOptions where
  padding : String
  mtype : ManifestType
  newline : String
  key_val_sep : String

/-- Rust `{}` `Display` of an `f64`. -/
def F64.display : F64 → String
  | .finite q => if q.den = 1 then toString q.num else toString q
  | .inf => "inf"
  | .negInf => "-inf"
  | .nan => "NaN"

/-- The separator emitted before a non-first array item or object field
(`manifest.rs:63-70, 104-110`). -/
def jsonSep (first : Bool) (o : ManifestJsonOptions) : String :=
  if first then ""
  else
    "," ++
      match o.mtype with
      | .toStringMode => " "
      | .minify => ""
      | _ => o.newline

mutual

/-- `manifest_json_ex_buf`: the chunk appended for one value, with
`cur` the current padding (`cur_padding`). -/
def manifest_json_ex_buf : Val → String → ManifestJsonOptions →
    Except Error String
  | .bool b, _, _ => .ok (if b then "true" else "false")
  | .null, _, _ => .ok "null"
  | .str s, _, _ => .ok (String.mk (escape_string_json_chars s))
  | .num n, _, _ => .ok n.display
  | .arr items, cur, o =>
    if items.len = 0 then
      .ok ("[" ++
        (match o.mtype with
          | .std => "\n\n" ++ cur
          | .toStringMode => " "
          | .manifest => " "
          | .minify => "") ++ "]")
    else do
      let body ← manifestJsonArrItems items true (cur ++ o.padding) o
      .ok ("[" ++
        (if o.mtype ≠ .toStringMode ∧ o.mtype ≠ .minify
          then o.newline else "") ++
        body.1 ++
        (if o.mtype ≠ .toStringMode ∧ o.mtype ≠ .minify
          then o.newline ++ cur else "") ++ "]")
  | .obj fields, cur, o =>
    if fields.length = 0 then
      .ok ("\x7b" ++
        (match o.mtype with
          | .std => "\n\n" ++ cur
          | .toStringMode => " "
          | .manifest => " "
          | .minify => "") ++ "\x7d")
    else do
      let body ← manifestJsonObjFields fields true (cur ++ o.padding) o
      .ok ("\x7b" ++
        (if o.mtype ≠ .toStringMode ∧ o.mtype ≠ .minify
          then o.newline else "") ++
        body.1 ++
        (if o.mtype ≠ .toStringMode ∧ o.mtype ≠ .minify
          then o.newline ++ cur else "") ++ "\x7d")
  | .func _, _, _ => .error (.RuntimeError "tried to manifest function")

/-- The lazy-cell item loop of `manifest_json_ex_buf` (forcing each
cell in index order). -/
def manifestJsonCells : List LazyValInternals → Bool → String →
    ManifestJsonOptions → Except Error (String × Bool)
  | [], first, _, _ => .ok ("", first)
  | c :: rest, first, cur, o =>
    match c with
    | .Errored e => .error e
    | .Pending => .error .RecursiveLazyValueEvaluation
    | .Waiting (.err e) => .error e
    | .Computed v => do
      let chunk ← manifest_json_ex_buf v cur o
      let restPart ← manifestJsonCells rest false cur o
      .ok (jsonSep first o ++ cur ++ chunk ++ restPart.1, restPart.2)
    | .Waiting (.ok v) => do
      let chunk ← manifest_json_ex_buf v cur o
      let restPart ← manifestJsonCells rest false cur o
      .ok (jsonSep first o ++ cur ++ chunk ++ restPart.1, restPart.2)

/-- The eager item loop of `manifest_json_ex_buf`. -/
def manifestJsonVals : List Val → Bool → String → ManifestJsonOptions →
    Except Error (String × Bool)
  | [], first, _, _ => .ok ("", first)
  | v :: rest, first, cur, o => do
    let chunk ← manifest_json_ex_buf v cur o
    let restPart ← manifestJsonVals rest false cur o
    .ok (jsonSep first o ++ cur ++ chunk ++ restPart.1, restPart.2)

/-- The array-item loop of `manifest_json_ex_buf`, dispatching on the
array shape as `ArrValue::iter` does. Returns the chunk and the `first`
flag after the items. -/
def manifestJsonArrItems : ArrValue → Bool → String → ManifestJsonOptions →
    Except Error (String × Bool)
  | .lazy cells, first, cur, o => manifestJsonCells cells first cur o
  | .eager vs, first, cur, o => manifestJsonVals vs first cur o
  | .extended a b, first, cur, o => do
    let pa ← manifestJsonArrItems a first cur o
    let pb ← manifestJsonArrItems b pa.2 cur o
    .ok (pa.1 ++ pb.1, pb.2)

/-- The object-field loop of `manifest_json_ex_buf`: escaped key,
`key_val_sep`, manifested value. -/
def manifestJsonObjFields : List (String × Val) → Bool → String →
    ManifestJsonOptions → Except Error (String × Bool)
  | [], first, _, _ => .ok ("", first)
  | (k, v) :: rest, first, cur, o => do
    let chunk ← manifest_json_ex_buf v cur o
    let restPart ← manifestJsonObjFields rest false cur o
    .ok (jsonSep first o ++ cur ++ String.mk (escape_string_json_chars k) ++
      o.key_val_sep ++ chunk ++ restPart.1, restPart.2)

end

/-- `manifest_json_ex` (`manifest.rs:28-32`). -/
def manifest_json_ex (v : Val) (o : ManifestJsonOptions) :
    Except Error String :=
  manifest_json_ex_buf v "" o

/-! ## YAML manifestation (`stdlib/manifest.rs:169-347`)

Same buffer-as-returned-chunk convention as the JSON manifester. The
`parse::<i64>` / `parse::<f64>` probes inside `yaml_needs_quotes` are
modelled from the grammars of Rust std's `FromStr` implementations. -/

/-- `ManifestYamlOptions` from `manifest.rs` (`preserve_order` feature
off). -/
structure ManifestYamlOptions where
  padding : String
  arr_element_padding : String
  quote_keys : Bool

/-- Rust `str::split(c)` on a character list (never empty). -/
def splitOnChar (c : Char) : List Char → List (List Char)
  | [] => [[]]
  | x :: rest =>
    match splitOnChar c rest with
    | [] => [[]]
    | h :: t => if x = c then [] :: h :: t else (x :: h) :: t

/-- ASCII digit test. -/
def isAsciiDigit (c : Char) : Bool := decide (48 ≤ c.toNat ∧ c.toNat ≤ 57)

/-- Decimal value of a digit run. -/
def digitsToNat (ds : List Char) : Nat :=
  ds.foldl (fun a c => a * 10 + (c.toNat - 48)) 0

/-- Modelled from the spec / Rust std: `str::parse::<i64>` succeeds on
an optional sign followed by digits whose value fits `i64`. -/
def parseI64ok (l : List Char) : Bool :=
  let p :=
    match l with
    | c :: rest =>
      if c = Char.ofNat 45 then (true, rest)
      else if c = Char.ofNat 43 then (false, rest)
      else (false, l)
    | [] => (false, [])
  !p.2.isEmpty && p.2.all isAsciiDigit &&
    decide (digitsToNat p.2 ≤
      if p.1 then 9223372036854775808 else 9223372036854775807)

/-- The exponent tail of Rust's float grammar. -/
def expOk : List Char → Bool
  | [] => true
  | c :: rest =>
    (c == Char.ofNat 101 || c == Char.ofNat 69) &&
      (let rest2 :=
        match rest with
        | d :: r2 =>
          if d = Char.ofNat 43 ∨ d = Char.ofNat 45 then r2 else rest
        | [] => []
      !rest2.isEmpty && rest2.all isAsciiDigit)

/-- The mantissa-and-exponent part of Rust's float grammar. -/
def mantissaExpOk (l : List Char) : Bool :=
  let intPart := l.takeWhile isAsciiDigit
  let rest1 := l.dropWhile isAsciiDigit
  match rest1 with
  | [] => !intPart.isEmpty
  | c :: rest2 =>
    if c = Char.ofNat 46 then
      let frac := rest2.takeWhile isAsciiDigit
      let rest3 := rest2.dropWhile isAsciiDigit
      (!intPart.isEmpty || !frac.isEmpty) && expOk rest3
    else
      !intPart.isEmpty && expOk rest1

/-- Modelled from the spec / Rust std: `str::parse::<f64>` succeeds on
an optional sign followed by `inf`/`infinity`/`nan` (case-insensitive)
or a decimal mantissa with optional exponent. -/
def parseF64ok (l : List Char) : Bool :=
  let l1 :=
    match l with
    | c :: rest =>
      if c = Char.ofNat 43 ∨ c = Char.ofNat 45 then rest else l
    | [] => []
  let lowered := l1.map Char.toLower
  if lowered = "inf".data ∨ lowered = "infinity".data ∨
      lowered = "nan".data then true
  else mantissaExpOk l1

/-- The character class of `yaml_needs_quotes`'s `contains` check. -/
def yamlCharNeedsQuotes (c : Char) : Bool :=
  let n := c.toNat
  decide (n = 58 ∨ n = 123 ∨ n = 125 ∨ n = 91 ∨ n = 93 ∨ n = 44 ∨
    n = 35 ∨ n = 96 ∨ n = 34 ∨ n = 39 ∨ n = 92 ∨ n ≤ 6 ∨ n = 9 ∨
    n = 10 ∨ n = 13 ∨ (14 ≤ n ∧ n ≤ 26) ∨ (28 ≤ n ∧ n ≤ 31))

/-- The prefix-character class of `yaml_needs_quotes`. -/
def yamlStartNeedsQuotes (c : Char) : Bool :=
  decide (c.toNat ∈ [38, 42, 63, 124, 45, 60, 62, 61, 33, 37, 64])

/-- `yaml_needs_quotes` (`manifest.rs:199-223`). -/
def yaml_needs_quotes (s : String) : Bool :=
  let l := s.data
  s.isEmpty ||
  (l.head? == some (Char.ofNat 32) || l.getLast? == some (Char.ofNat 32)) ||
  (match l.head? with
    | some c => yamlStartNeedsQuotes c
    | none => false) ||
  l.any yamlCharNeedsQuotes ||
  ["yes", "Yes", "YES", "no", "No", "NO", "True", "TRUE", "true",
    "False", "FALSE", "false", "on", "On", "ON", "off", "Off", "OFF",
    "null", "Null", "NULL", "~"].contains s ||
  (l.all (fun c => isAsciiDigit c || c == Char.ofNat 45) &&
    (l.filter (fun c => c == Char.ofNat 45)).length == 2) ||
  l.head? == some (Char.ofNat 46) ||
  l.take 2 == [Char.ofNat 48, Char.ofNat 120] ||
  parseI64ok l ||
  parseF64ok l

/-- After `-` in a YAML array: newline-plus-padding for a non-empty
array item, a space otherwise (`manifest.rs:278-284`). -/
def yamlArrDash (v : Val) (cur : String) (o : ManifestYamlOptions) :
    String :=
  match v with
  | .arr a => if a.len ≠ 0 then "\n" ++ cur ++ o.padding else " "
  | _ => " "

/-- `extra_padding` for a YAML array item (`manifest.rs:286-294`). -/
def yamlArrCur (v : Val) (cur : String) (o : ManifestYamlOptions) :
    String :=
  match v with
  | .arr a => if a.len ≠ 0 then cur ++ o.padding else cur
  | .obj fs => if fs.length ≠ 0 then cur ++ o.padding else cur
  | _ => cur

/-- After the `:` of a YAML field: the text emitted and the padding the
value is manifested under (`manifest.rs:322-338`). -/
def yamlFieldSuffix (v : Val) (cur : String) (o : ManifestYamlOptions) :
    String × String :=
  match v with
  | .arr a =>
    if a.len ≠ 0 then
      ("\n" ++ cur ++ o.arr_element_padding, cur ++ o.arr_element_padding)
    else (" ", cur)
  | .obj fs =>
    if fs.length ≠ 0 then ("\n" ++ cur ++ o.padding, cur ++ o.padding)
    else (" ", cur)
  | _ => (" ", cur)

mutual

/-- `manifest_yaml_ex_buf` (`manifest.rs:232-347`). -/
def manifest_yaml_ex_buf : Val → String → ManifestYamlOptions →
    Except Error String
  | .bool b, _, _ => .ok (if b then "true" else "false")
  | .null, _, _ => .ok "null"
  | .str s, cur, o =>
    if s.isEmpty then .ok "\"\""
    else if s.data.getLast? == some (Char.ofNat 10) then
      .ok ("|" ++
        String.join ((splitOnChar (Char.ofNat 10) s.data.dropLast).map
          fun line => "\n" ++ cur ++ o.padding ++ String.mk line))
    else if !o.quote_keys && !yaml_needs_quotes s then .ok s
    else .ok (String.mk (escape_string_json_chars s))
  | .num n, _, _ => .ok n.display
  | .arr a, cur, o =>
    if a.len = 0 then .ok "[]"
    else do
      let body ← manifestYamlArrItems a true cur o
      .ok body.1
  | .obj fs, cur, o =>
    if fs.length = 0 then .ok "\x7b\x7d"
    else do
      let body ← manifestYamlObjFields fs true cur o
      .ok body.1
  | .func _, _, _ => .error (.RuntimeError "tried to manifest function")

/-- The lazy-cell item loop of `manifest_yaml_ex_buf` (forcing each
cell in index order). -/
def manifestYamlCells : List LazyValInternals → Bool → String →
    ManifestYamlOptions → Except Error (String × Bool)
  | [], first, _, _ => .ok ("", first)
  | c :: rest, first, cur, o =>
    match c with
    | .Errored e => .error e
    | .Pending => .error .RecursiveLazyValueEvaluation
    | .Waiting (.err e) => .error e
    | .Computed v => do
      let chunk ← manifest_yaml_ex_buf v (yamlArrCur v cur o) o
      let restPart ← manifestYamlCells rest false cur o
      .ok ((if first then "" else "\n" ++ cur) ++ "-" ++
        yamlArrDash v cur o ++ chunk ++ restPart.1, restPart.2)
    | .Waiting (.ok v) => do
      let chunk ← manifest_yaml_ex_buf v (yamlArrCur v cur o) o
      let restPart ← manifestYamlCells rest false cur o
      .ok ((if first then "" else "\n" ++ cur) ++ "-" ++
        yamlArrDash v cur o ++ chunk ++ restPart.1, restPart.2)

/-- The eager item loop of `manifest_yaml_ex_buf`. -/
def manifestYamlVals : List Val → Bool → String →
    ManifestYamlOptions → Except Error (String × Bool)
  | [], first, _, _ => .ok ("", first)
  | v :: rest, first, cur, o => do
    let chunk ← manifest_yaml_ex_buf v (yamlArrCur v cur o) o
    let restPart ← manifestYamlVals rest false cur o
    .ok ((if first then "" else "\n" ++ cur) ++ "-" ++
      yamlArrDash v cur o ++ chunk ++ restPart.1, restPart.2)

/-- The array-item loop of `manifest_yaml_ex_buf`, dispatching on the
array shape. -/
def manifestYamlArrItems : ArrValue → Bool → String →
    ManifestYamlOptions → Except Error (String × Bool)
  | .lazy cells, first, cur, o => manifestYamlCells cells first cur o
  | .eager vs, first, cur, o => manifestYamlVals vs first cur o
  | .extended a b, first, cur, o => do
    let pa ← manifestYamlArrItems a first cur o
    let pb ← manifestYamlArrItems b pa.2 cur o
    .ok (pa.1 ++ pb.1, pb.2)

/-- The field loop of `manifest_yaml_ex_buf`. -/
def manifestYamlObjFields : List (String × Val) → Bool → String →
    ManifestYamlOptions → Except Error (String × Bool)
  | [], first, _, _ => .ok ("", first)
  | (k, v) :: rest, first, cur, o => do
    let chunk ← manifest_yaml_ex_buf v (yamlFieldSuffix v cur o).2 o
    let restPart ← manifestYamlObjFields rest false cur o
    .ok ((if first then "" else "\n" ++ cur) ++
      (if !o.quote_keys && !yaml_needs_quotes k then k
        else String.mk (escape_string_json_chars k)) ++
      ":" ++ (yamlFieldSuffix v cur o).1 ++ chunk ++ restPart.1,
      restPart.2)

end

/-- `manifest_yaml_ex` (`manifest.rs:225-229`). -/
def manifest_yaml_ex (v : Val) (o : ManifestYamlOptions) :
    Except Error String :=
  manifest_yaml_ex_buf v "" o

/-! ## `Val::manifest` (`val.rs:174-181, 432-567`) -/

/-- `ManifestFormat` from `val.rs` (`ToString` is named
`toStringFormat` here). -/
inductive ManifestFormat where
  | yamlStream (inner : ManifestFormat)
  | yaml (padding : Nat)
  | json (padding : Nat)
  | toStringFormat
  | string

/-- Whether a format is a `YamlStream`. -/
def ManifestFormat.isStream : ManifestFormat → Bool
  | .yamlStream _ => true
  | _ => false

/-- Whether a format is `String`. -/
def ManifestFormat.isString : ManifestFormat → Bool
  | .string => true
  | _ => false

/-- `" ".repeat(padding)`. -/
def spaces (n : Nat) : String := String.mk (List.replicate n (Char.ofNat 32))

/-- `Val::to_json` (`val.rs:519-534`): `Minify` when the padding is
zero, `Manifest` otherwise. -/
def Val.to_json (v : Val) (padding : Nat) : Except Error String :=
  manifest_json_ex v
    { padding := spaces padding
      mtype := if padding = 0 then .minify else .manifest
      newline := "\n"
      key_val_sep := ": " }

/-- `Val::to_yaml` (`val.rs:550-561`). -/
def Val.to_yaml (v : Val) (padding : Nat) : Except Error String :=
  manifest_yaml_ex v
    { padding := spaces padding
      arr_element_padding := spaces padding
      quote_keys := false }

/-- `Val::to_string` (`val.rs:432-449`). -/
def Val.to_string (v : Val) : Except Error String :=
  match v with
  | .bool true => .ok "true"
  | .bool false => .ok "false"
  | .null => .ok "null"
  | .str s => .ok s
  | v =>
    manifest_json_ex v
      { padding := ""
        mtype := .toStringMode
        newline := "\n"
        key_val_sep := ": " }

/-- The non-stream arms of `Val::manifest` (`val.rs:508-515`). Inside
the stream-element loop the inner format is never a `YamlStream` (the
caller rejects that before iterating), so the first arm here is dead
code kept only for totality; `manifest_eq_nonStream` below proves this
dispatcher agrees with `Val.manifest` on every non-stream format. -/
def manifestNonStream (v : Val) : ManifestFormat → Except Error String
  | .yamlStream _ => .error .StreamManifestOutputCannotBeRecursed
  | .yaml padding => v.to_yaml padding
  | .json padding => v.to_json padding
  | .toStringFormat => v.to_string
  | .string =>
    match v with
    | .str s => .ok s
    | _ => .error .StringManifestOutputIsNotAString

/-- The lazy-cell element loop of the `YamlStream` arm
(`val.rs:497-504`), forcing cells in index order; each element is
manifested with the (non-stream) inner format. -/
def manifestStreamCells : List LazyValInternals → ManifestFormat →
    Except Error String
  | [], _ => .ok ""
  | c :: rest, f =>
    match c with
    | .Errored e => .error e
    | .Pending => .error .RecursiveLazyValueEvaluation
    | .Waiting (.err e) => .error e
    | .Computed v => do
      let chunk ← manifestNonStream v f
      let restPart ← manifestStreamCells rest f
      .ok ("---\n" ++ chunk ++ "\n" ++ restPart)
    | .Waiting (.ok v) => do
      let chunk ← manifestNonStream v f
      let restPart ← manifestStreamCells rest f
      .ok ("---\n" ++ chunk ++ "\n" ++ restPart)

/-- The eager element loop of the `YamlStream` arm. -/
def manifestStreamVals : List Val → ManifestFormat → Except Error String
  | [], _ => .ok ""
  | v :: rest, f => do
    let chunk ← manifestNonStream v f
    let restPart ← manifestStreamVals rest f
    .ok ("---\n" ++ chunk ++ "\n" ++ restPart)

/-- The element loop of the `YamlStream` arm over an array shape. -/
def manifestStreamItems : ArrValue → ManifestFormat → Except Error String
  | .lazy cells, f => manifestStreamCells cells f
  | .eager vs, f => manifestStreamVals vs f
  | .extended a b, f => do
    let pa ← manifestStreamItems a f
    let pb ← manifestStreamItems b f
    .ok (pa ++ pb)

/-- `Val::manifest` (`val.rs:482-516`). The `YamlStream` arm requires
an array, rejects a nested stream or `String` inner format, and for a
non-empty array emits `---\n` before each manifested element, a newline
after it, and a trailing `...`; an empty array emits nothing. -/
def Val.manifest (v : Val) : ManifestFormat → Except Error String
  | .yamlStream format =>
    (match v with
    | .arr a =>
      (match format with
      | .yamlStream _ => .error .StreamManifestOutputCannotBeRecursed
      | .string => .error .StreamManifestCannotNestString
      | _ =>
        if a.len = 0 then .ok ""
        else do
          let body ← manifestStreamItems a format
          .ok (body ++ "..."))
    | _ => .error .StreamManifestOutputIsNotAArray)
  | .yaml padding => v.to_yaml padding
  | .json padding => v.to_json padding
  | .toStringFormat => v.to_string
  | .string =>
    match v with
    | .str s => .ok s
    | _ => .error .StringManifestOutputIsNotAString

end Jrsonnet

open Jrsonnet

/-- **C1.** A thunk's producer is invoked at most once: a single force
performs at most one producer invocation, and forcing the cell left behind
by any force returns the very same result, leaves the state unchanged, and
performs zero further producer invocations. Hence over any sequence of
forces the producer runs at most once, and after the first completed force
every later force repeats its value or error. -/
theorem c1_thunk_memoization (c : LazyValInternals) :
    c.evaluate.2.2 ≤ 1 ∧
    c.evaluate.2.1.evaluate = (c.evaluate.1, c.evaluate.2.1, 0) := by
  cases c with
  | Computed v => exact ⟨by simp [LazyValInternals.evaluate], rfl⟩
  | Errored e => exact ⟨by simp [LazyValInternals.evaluate], rfl⟩
  | Pending => exact ⟨by simp [LazyValInternals.evaluate], rfl⟩
  | Waiting f =>
    cases f with
    | ok v => exact ⟨by simp [LazyValInternals.evaluate, ProducerResult.run], by
        simp [LazyValInternals.evaluate, ProducerResult.run]⟩
    | err e => exact ⟨by simp [LazyValInternals.evaluate, ProducerResult.run], by
        simp [LazyValInternals.evaluate, ProducerResult.run]⟩

/-- **C2.** While a producer runs, its cell holds `Pending` (the `Waiting`
arm of `evaluate` installs it via `mem::replace` before invoking the
producer), so a re-entrant force lands in the `Pending` arm: it fails with
`RecursiveLazyValueEvaluation`, leaves the cell unchanged (no value is
installed), and does not invoke any producer. -/
theorem c2_recursive_force_detected :
    LazyValInternals.Pending.evaluate =
      (.error .RecursiveLazyValueEvaluation, .Pending, 0) := rfl

/-- Helper: forcing a `Waiting` cell yields exactly what the producer
returns. -/
theorem evaluateRes_waiting (f : ProducerResult) :
    (LazyValInternals.Waiting f).evaluateRes = f.run := by
  cases f <;> rfl

/-- **C3, counterexample.** At the non-finite input `+∞`,
`new_checked_num` fails with `RuntimeError("overflow")`, which is not an
error of kind `Overflow`: the claimed error kind is wrong. -/
theorem c3_counterexample :
    Val.new_checked_num F64.inf = .error (.RuntimeError "overflow") ∧
    (Except.error (Error.RuntimeError "overflow") : Except Error Val) ≠
      .error .Overflow := by
  refine ⟨rfl, ?_⟩
  intro h
  simp at h

/-- **C3, amended.** Construction of a number whose value is non-finite
(`±∞` or NaN) fails with `RuntimeError("overflow")` (not with a distinct
`Overflow` kind) at the point of production; finite numbers construct
successfully. -/
theorem c3_nonfinite_number_rejected (n : F64) :
    (n.isFinite = true → Val.new_checked_num n = .ok (.num n)) ∧
    (n.isFinite = false →
      Val.new_checked_num n = .error (.RuntimeError "overflow")) := by
  constructor <;> intro h <;> simp [Val.new_checked_num, h]

/-- Witness for C3's amended theorem at `3` and at NaN. -/
theorem c3_nonfinite_number_rejected_witness :
    Val.new_checked_num (.finite 3) = .ok (.num (.finite 3)) ∧
    Val.new_checked_num F64.nan = .error (.RuntimeError "overflow") :=
  ⟨(c3_nonfinite_number_rejected (.finite 3)).1 rfl,
   (c3_nonfinite_number_rejected F64.nan).2 rfl⟩

/-- **C5, counterexample.** A non-primitive operand does not make
`primitive_equals` fail when the other side has a different kind: an
array compared with `null` returns `false` instead of erroring. -/
theorem c5_counterexample :
    primitive_equals (.arr (.eager [])) .null = .ok false := rfl

/-- **C5, amended.** `primitive_equals` fails exactly when both operands
are arrays, both are objects, or both are functions; every pair of
differently-kinded operands — in particular any other pair with a
non-primitive side — returns `Ok(false)`; two numbers compare equal
exactly when `|a - b| ≤ ε` (`f64::EPSILON`). -/
theorem c5_primitive_equals_characterized :
    (∀ a b : Val,
      (∃ e, primitive_equals a b = .error e) ↔
        (a.value_type = b.value_type ∧
          (a.value_type = .arr ∨ a.value_type = .obj ∨
            a.value_type = .func))) ∧
    (∀ a b : Val, a.value_type ≠ b.value_type →
      primitive_equals a b = .ok false) ∧
    (∀ p q : ℚ,
      primitive_equals (.num (.finite p)) (.num (.finite q)) =
        .ok (decide (|p - q| ≤ F64.epsilon))) := by
  refine ⟨?_, ?_, ?_⟩
  · intro a b
    cases a <;> cases b <;> simp [primitive_equals, Val.value_type]
  · intro a b h
    cases a <;> cases b <;> first | exact absurd rfl h | rfl
  · intro p q
    simp [primitive_equals, F64.sub, F64.abs, F64.leBool]

/-- Witness for C5's amended theorem: a non-primitive operand paired
with a different kind returns `false`. -/
theorem c5_primitive_equals_characterized_witness :
    primitive_equals (.obj []) (.num (.finite 0)) = .ok false :=
  c5_primitive_equals_characterized.2.1 (.obj []) (.num (.finite 0))
    (by decide)

/-- **C9.** For a negative numeric index `q`: the fractional-part check
does not fire (Rust's `fract` of a negative number is nonpositive, hence
not `> ε`), the `as usize` cast saturates to `0`, so array and string
indexing behave exactly like indexing at `0` — returning the first
element / first character instead of a bounds error when non-empty. -/
theorem c9_negative_index_saturates (a : ArrValue) (s : String) (q : ℚ)
    (hq : q < 0) :
    F64.castUsize (.finite q) = 0 ∧
    F64.gtBool (F64.fract (.finite q)) (.finite F64.epsilon) = false ∧
    evaluateIndexArrNum a (.finite q) = evaluateIndexArrNum a (.finite 0) ∧
    evaluateIndexStrNum s (.finite q) = evaluateIndexStrNum s (.finite 0) ∧
    (∀ v rest, evaluateIndexArrNum (.eager (v :: rest)) (.finite q) =
      .ok v) := by
  have hnot : ¬ (0 : ℚ) ≤ q := not_le.mpr hq
  have htr : F64.ratTrunc q = -⌊-q⌋ := by simp [F64.ratTrunc, hnot]
  have hfloor : (0 : ℤ) ≤ ⌊-q⌋ := by
    rw [Int.le_floor]
    push_cast
    linarith
  have hcast : F64.castUsize (.finite q) = 0 := by
    simp only [F64.castUsize, htr]
    have : (-⌊-q⌋).toNat = 0 := Int.toNat_eq_zero.mpr (by omega)
    simp [this]
  have hcast0 : F64.castUsize (.finite 0) = 0 := by
    norm_num [F64.castUsize, F64.ratTrunc]
  have hfr : q - F64.ratTrunc q ≤ 0 := by
    rw [htr]
    push_cast
    have : (⌊-q⌋ : ℚ) ≤ -q := Int.floor_le (-q)
    linarith
  have heps : (0 : ℚ) < F64.epsilon := by norm_num [F64.epsilon]
  have hgt : F64.gtBool (F64.fract (.finite q)) (.finite F64.epsilon) =
      false := by
    simp only [F64.gtBool, F64.fract, F64.leBool, Bool.and_eq_false_iff]
    left
    simp only [decide_eq_false_iff_not, not_le]
    linarith
  have hgt0 : F64.gtBool (F64.fract (.finite 0)) (.finite F64.epsilon) =
      false := by
    norm_num [F64.gtBool, F64.fract, F64.ratTrunc, F64.leBool, F64.epsilon]
  refine ⟨hcast, hgt, ?_, ?_, ?_⟩
  · simp [evaluateIndexArrNum, hgt, hgt0, hcast, hcast0]
  · simp [evaluateIndexStrNum, hcast, hcast0]
  · intro v rest
    simp [evaluateIndexArrNum, hgt, hcast, ArrValue.get]

/-- Witness for C9 at `q = -3/2`, `a = [null]`, `s = "ab"`. -/
theorem c9_negative_index_saturates_witness :
    F64.castUsize (.finite (-(3 / 2))) = 0 ∧
    F64.gtBool (F64.fract (.finite (-(3 / 2)))) (.finite F64.epsilon) =
      false ∧
    evaluateIndexArrNum (.eager [.null]) (.finite (-(3 / 2))) =
      evaluateIndexArrNum (.eager [.null]) (.finite 0) ∧
    evaluateIndexStrNum "ab" (.finite (-(3 / 2))) =
      evaluateIndexStrNum "ab" (.finite 0) ∧
    (∀ v rest, evaluateIndexArrNum (.eager (v :: rest))
      (.finite (-(3 / 2))) = .ok v) :=
  c9_negative_index_saturates (.eager [.null]) "ab" (-(3 / 2))
    (by norm_num)

/-- **C10.** An array literal builds one unevaluated thunk per element
(a `Lazy` array) — construction never fails, and accessing element `i`
is exactly running that element's producer — while an array
comprehension evaluates every element eagerly into an `Eager` array, so
the first element error surfaces at construction even if that element is
never accessed. -/
theorem c10_literal_lazy_comprehension_eager (items : List ProducerResult) :
    evaluateArrLiteral items = .ok (.arr (.lazy (items.map .Waiting))) ∧
    (∀ i : Nat, ∀ h : i < items.length,
      (ArrValue.lazy (items.map .Waiting)).get i =
        ((items.get ⟨i, h⟩).run).map some) ∧
    (∀ pre e post, items = pre ++ .err e :: post →
      (∀ f ∈ pre, ∃ v, f = .ok v) →
      evaluateArrComp items = .error e) := by
  refine ⟨rfl, ?_, ?_⟩
  · intro i h
    simp only [ArrValue.get, List.get?_eq_getElem?, List.getElem?_map,
      List.getElem?_eq_getElem h, List.get_eq_getElem, Option.map_some',
      evaluateRes_waiting]
  · intro pre e post hitems hpre
    subst hitems
    have hrun : runAll (pre ++ .err e :: post) = .error e := by
      induction pre with
      | nil => rfl
      | cons f rest ih =>
        obtain ⟨v, rfl⟩ := hpre f (List.mem_cons_self f rest)
        have ih' := ih (fun g hg => hpre g (List.mem_cons_of_mem _ hg))
        have step : runAll ((ProducerResult.ok v :: rest) ++
            ProducerResult.err e :: post) =
            (do
              let vs ← runAll (rest ++ ProducerResult.err e :: post)
              pure (v :: vs)) := rfl
        rw [step, ih']
        rfl
    simp only [evaluateArrComp]
    rw [hrun]
    rfl

/-- Witness for C10: literal of `[ok null, err boom]` builds lazily and
accessing index 1 reproduces the error, while the comprehension fails at
construction. -/
theorem c10_literal_lazy_comprehension_eager_witness :
    evaluateArrLiteral [.ok .null, .err (.RuntimeError "boom")] =
      .ok (.arr (.lazy
        ([ProducerResult.ok .null,
          .err (.RuntimeError "boom")].map .Waiting))) ∧
    (ArrValue.lazy ([ProducerResult.ok .null,
        .err (.RuntimeError "boom")].map .Waiting)).get 1 =
      ((([ProducerResult.ok .null,
        .err (.RuntimeError "boom")]).get ⟨1, by norm_num⟩).run).map
          some ∧
    evaluateArrComp [.ok .null, .err (.RuntimeError "boom")] =
      .error (.RuntimeError "boom") := by
  obtain ⟨h1, h2, h3⟩ :=
    c10_literal_lazy_comprehension_eager
      [.ok .null, .err (.RuntimeError "boom")]
  refine ⟨h1, h2 1 (by norm_num), ?_⟩
  refine h3 [.ok .null] (.RuntimeError "boom") [] rfl ?_
  intro f hf
  rcases List.mem_singleton.mp hf with rfl
  exact ⟨_, rfl⟩

/-- Helper: interning preserves pool well-formedness. -/
theorem intern_bytes_wf (p : Pool) (hwf : p.WF) (b : List Nat) :
    (intern_bytes p b).2.WF := by
  unfold intern_bytes
  cases hfind : p.entries.find? (fun e => e.1 == b) with
  | some e => simpa using hwf
  | none =>
    obtain ⟨hbound, hpw⟩ := hwf
    have hnone := List.find?_eq_none.mp hfind
    refine ⟨?_, ?_⟩
    · intro e he
      rcases List.mem_cons.mp he with rfl | he'
      · exact Nat.lt_succ_self _
      · exact Nat.lt_succ_of_lt (hbound e he')
    · refine List.pairwise_cons.mpr ⟨?_, hpw⟩
      intro e he
      refine ⟨?_, ?_⟩
      · intro hb
        exact hnone e he (by simp [hb.symm])
      · intro hn
        exact absurd (hbound e he) (by omega)

/-- Helper: right after interning `b`, the pool maps `b` to the returned
address. -/
theorem lookupPtr_intern_self (p : Pool) (b : List Nat) :
    lookupPtr (intern_bytes p b).2 b = some (intern_bytes p b).1 := by
  unfold intern_bytes
  cases hfind : p.entries.find? (fun e => e.1 == b) with
  | some e => simp [lookupPtr, hfind]
  | none =>
    simp only [lookupPtr]
    rw [List.find?_cons_of_pos _ (by simp)]
    rfl

/-- Helper: an existing content-to-address association survives any
later intern call (nothing is evicted while handles are live). -/
theorem lookupPtr_intern_preserved (p : Pool) (b c : List Nat) (v : Nat)
    (hl : lookupPtr p b = some v) :
    lookupPtr (intern_bytes p c).2 b = some v := by
  unfold intern_bytes
  cases hfind : p.entries.find? (fun e => e.1 == c) with
  | some e => simpa using hl
  | none =>
    have hcb : c ≠ b := by
      intro h
      subst h
      simp [lookupPtr, hfind] at hl
    simp only [lookupPtr]
    rw [List.find?_cons_of_neg _ (by simp [hcb])]
    exact hl

/-- Helper: association survival across a whole sequence of interns. -/
theorem lookupPtr_internSeq (p : Pool) (b : List Nat) (v : Nat)
    (cs : List (List Nat)) (hl : lookupPtr p b = some v) :
    lookupPtr (internSeq p cs) b = some v := by
  induction cs generalizing p with
  | nil => exact hl
  | cons c cs ih =>
    exact ih _ (lookupPtr_intern_preserved p b c v hl)

/-- Helper: well-formedness across a sequence of interns. -/
theorem internSeq_wf (p : Pool) (cs : List (List Nat)) (hwf : p.WF) :
    (internSeq p cs).WF := by
  induction cs generalizing p with
  | nil => exact hwf
  | cons c cs ih => exact ih _ (intern_bytes_wf p hwf c)

/-- Helper: interning a content the pool already holds returns its
stored address. -/
theorem intern_of_lookup (q : Pool) (b : List Nat) (v : Nat)
    (hl : lookupPtr q b = some v) : (intern_bytes q b).1 = v := by
  unfold lookupPtr at hl
  unfold intern_bytes
  cases hfind : q.entries.find? (fun e => e.1 == b) with
  | some e => simp [hfind] at hl ⊢; exact hl
  | none => simp [hfind] at hl

/-- Helper: interning a different content yields a different address. -/
theorem intern_neq (q : Pool) (x y : List Nat) (v : Nat) (hwf : q.WF)
    (hx : lookupPtr q x = some v) (hxy : y ≠ x) :
    (intern_bytes q y).1 ≠ v := by
  unfold lookupPtr at hx
  obtain ⟨hbound, hpw⟩ := hwf
  cases hfx : q.entries.find? (fun e => e.1 == x) with
  | none => simp [hfx] at hx
  | some ex =>
    rw [hfx] at hx
    have hexv : ex.2 = v := by simpa using hx
    have hexmem : ex ∈ q.entries := List.mem_of_find?_eq_some hfx
    have hex1 : ex.1 = x := by simpa using List.find?_some hfx
    unfold intern_bytes
    cases hfy : q.entries.find? (fun e => e.1 == y) with
    | none =>
      have := hbound ex hexmem
      simp only
      omega
    | some ey =>
      have heymem : ey ∈ q.entries := List.mem_of_find?_eq_some hfy
      have hey1 : ey.1 = y := by simpa using List.find?_some hfy
      have hne : ey ≠ ex := by
        intro h
        rw [h, hex1] at hey1
        exact hxy hey1.symm
      have hsymm : Symmetric fun a b : List Nat × Nat =>
          a.1 ≠ b.1 ∧ a.2 ≠ b.2 := by
        intro a b h
        exact ⟨h.1.symm, h.2.symm⟩
      have hrel := List.Pairwise.forall hsymm hpw heymem hexmem hne
      simp only
      rw [← hexv]
      exact hrel.2

/-- **C6.** Starting from any well-formed pool: interning `x`, then any
other contents, then `x` again returns a handle that compares equal
(`Inner::ptr_eq`) and hashes equal (pointer hash) to the first handle;
interning a different content `y` while the `x` handle is live returns
a handle comparing unequal. -/
theorem c6_interner_identity (p : Pool) (hwf : p.WF) (x y : List Nat)
    (cs : List (List Nat)) :
    istrEq (intern_bytes p x).1
      (intern_bytes (internSeq (intern_bytes p x).2 cs) x).1 = true ∧
    istrHash (intern_bytes p x).1 =
      istrHash (intern_bytes (internSeq (intern_bytes p x).2 cs) x).1 ∧
    (y ≠ x →
      istrEq (intern_bytes (internSeq (intern_bytes p x).2 cs) y).1
        (intern_bytes p x).1 = false) := by
  have hl : lookupPtr (internSeq (intern_bytes p x).2 cs) x =
      some (intern_bytes p x).1 :=
    lookupPtr_internSeq _ _ _ _ (lookupPtr_intern_self p x)
  have hwf' : (internSeq (intern_bytes p x).2 cs).WF :=
    internSeq_wf _ _ (intern_bytes_wf p hwf x)
  have heq := intern_of_lookup _ _ _ hl
  refine ⟨by simp [istrEq, heq], by simp [istrHash, heq], ?_⟩
  intro hxy
  have hne := intern_neq _ _ _ _ hwf' hl hxy
  simp [istrEq, hne]

/-- Witness for C6: empty pool, `x = [1]`, `y = [2]`, with an
interleaved intern of `[3]`. -/
theorem c6_interner_identity_witness :
    istrEq (intern_bytes ⟨[], 0⟩ [1]).1
      (intern_bytes (internSeq (intern_bytes ⟨[], 0⟩ [1]).2 [[3]]) [1]).1
        = true ∧
    istrHash (intern_bytes ⟨[], 0⟩ [1]).1 =
      istrHash
        (intern_bytes (internSeq (intern_bytes ⟨[], 0⟩ [1]).2 [[3]]) [1]).1 ∧
    istrEq (intern_bytes (internSeq (intern_bytes ⟨[], 0⟩ [1]).2 [[3]]) [2]).1
      (intern_bytes ⟨[], 0⟩ [1]).1 = false := by
  have h := c6_interner_identity ⟨[], 0⟩
    ⟨fun e he => absurd he (List.not_mem_nil e), List.Pairwise.nil⟩
    [1] [2] [[3]]
  exact ⟨h.1, h.2.1, h.2.2 (by decide)⟩

/-- Helper: for code points below 256, `{:04x}` is two literal zeros
followed by the two-digit hex rendering. -/
theorem hex4_below_256 (n : Nat) (h : n < 256) :
    hex4 n = Char.ofNat 48 :: Char.ofNat 48 ::
      [hexDigit (n / 16), hexDigit (n % 16)] := by
  unfold hex4
  have h1 : n / 4096 = 0 := Nat.div_eq_of_lt (by omega)
  have h2 : n / 256 = 0 := Nat.div_eq_of_lt h
  have h3 : n / 16 % 16 = n / 16 := Nat.mod_eq_of_lt (by omega)
  rw [h1, h2, h3]
  rfl

/-- Helper: per-character agreement between the source escaping loop and
the claim's table. -/
theorem escape_char_json_eq_claim (c : Char) :
    escape_char_json c = escapeCharClaim c := by
  unfold escape_char_json escapeCharClaim
  split_ifs with h1 h2 h3 h4 h5 h6 h7 h8 <;> try rfl
  have hlt : c.toNat < 256 := by
    rcases h8 with h | h
    · omega
    · omega
  rw [hex4_below_256 c.toNat hlt]

/-- **C7.** JSON string escaping wraps the string in double quotes and
maps each character per the claim's table: the seven short escapes,
`\u00XX` (four hex digits, the leading two being zero) for the other
code points below 32 or in `127..=159`, and every remaining character
unchanged. -/
theorem c7_json_escaping (s : String) :
    escape_string_json s =
      String.mk (Char.ofNat 34 ::
        (s.data.map escapeCharClaim).flatten ++ [Char.ofNat 34]) := by
  have hfun : escape_char_json = escapeCharClaim :=
    funext escape_char_json_eq_claim
  unfold escape_string_json escape_string_json_chars
  rw [hfun]

/-- Helper: the named-argument loop processes an appended list in two
stages. -/
theorem bindNamed_append (params : List Param) (l1 l2 passed : List String) :
    bindNamed params (l1 ++ l2) passed =
      match bindNamed params l1 passed with
      | .ok p1 => bindNamed params l2 p1
      | .error e => .error e := by
  induction l1 generalizing passed with
  | nil => simp [bindNamed]
  | cons n rest ih =>
    simp only [List.cons_append, bindNamed]
    split_ifs with h1 h2
    all_goals first | rfl | exact ih _

/-- Helper: a named argument matching no parameter fails the loop with
`UnknownFunctionParameter`. -/
theorem bindNamed_unknown (params : List Param) (n : String)
    (rest passed : List String) (h : ∀ p ∈ params, p.name ≠ n) :
    bindNamed params (n :: rest) passed =
      .error (.UnknownFunctionParameter n) := by
  have hany : params.any (fun p => p.name == n) = false := by
    rw [List.any_eq_false]
    intro p hp
    simp [h p hp]
  simp [bindNamed, hany]

/-- Helper: a named argument for an already-bound parameter fails the
loop with `BindingParameterASecondTime`. -/
theorem bindNamed_second_time (params : List Param) (n : String)
    (rest passed : List String) (hknown : ∃ p ∈ params, p.name = n)
    (hmem : n ∈ passed) :
    bindNamed params (n :: rest) passed =
      .error (.BindingParameterASecondTime n) := by
  have hany : params.any (fun p => p.name == n) = true := by
    rw [List.any_eq_true]
    obtain ⟨p, hp, hpn⟩ := hknown
    exact ⟨p, hp, by simp [hpn]⟩
  simp [bindNamed, hany, hmem]

/-- Helper: facts about a successful run of the named-argument loop. -/
theorem bindNamed_ok_facts (params : List Param) (named : List String) :
    ∀ passed0 passed, bindNamed params named passed0 = .ok passed →
      (∀ x, x ∈ passed ↔ x ∈ named ∨ x ∈ passed0) ∧
      (∀ n ∈ named, ∃ p ∈ params, p.name = n) ∧
      (passed0.Nodup → passed.Nodup) ∧
      passed.length = passed0.length + named.length := by
  induction named with
  | nil =>
    intro passed0 passed h
    simp only [bindNamed] at h
    obtain rfl : passed0 = passed := by simpa using h
    simp
  | cons n rest ih =>
    intro passed0 passed h
    simp only [bindNamed] at h
    by_cases h1 : ¬ params.any (fun p => p.name == n)
    case pos =>
      rw [if_pos h1] at h
      exact Except.noConfusion h
    case neg =>
    rw [if_neg h1] at h
    by_cases h2 : n ∈ passed0
    case pos =>
      rw [if_pos h2] at h
      exact Except.noConfusion h
    case neg =>
    rw [if_neg h2] at h
    obtain ⟨hmem, hparam, hnd, hlen⟩ := ih (n :: passed0) passed h
    rw [not_not] at h1
    refine ⟨?_, ?_, ?_, ?_⟩
    · intro x
      rw [hmem x]
      simp only [List.mem_cons]
      tauto
    · intro m hm
      rcases List.mem_cons.mp hm with rfl | hm'
      · obtain ⟨p, hp, hpn⟩ := List.any_eq_true.mp h1
        exact ⟨p, hp, by simpa using hpn⟩
      · exact hparam m hm'
    · intro h0
      exact hnd (List.nodup_cons.mpr ⟨h2, h0⟩)
    · simp only [hlen, List.length_cons]
      omega

/-- Helper: a list of parameters splits into bound, defaulted-unbound
and undefaulted-unbound parts. -/
theorem length_filter_partition {α : Type} (l : List α) (f g : α → Bool) :
    (l.filter fun x => f x).length +
      (l.filter fun x => g x && !(f x)).length +
      (l.filter fun x => !(g x) && !(f x)).length = l.length := by
  induction l with
  | nil => rfl
  | cons x t ih =>
    cases hf : f x <;> cases hg : g x <;>
      simp [List.filter_cons, hf, hg] <;> omega

/-- Helper: filtering parameters on a name predicate matches filtering
the name list. -/
theorem filter_name_map_length (l : List Param) (q : String → Bool) :
    (l.filter fun p => q p.name).length =
      ((l.map Param.name).filter q).length := by
  induction l with
  | nil => rfl
  | cons p t ih =>
    cases h : q p.name <;> simp [List.filter_cons, h, ih]

/-- Helper: the bound-name count over a duplicate-free name list equals
the number of bound names. -/
theorem names_filter_length (names passed : List String)
    (hnn : names.Nodup) (hpn : passed.Nodup)
    (hsub : ∀ x ∈ passed, x ∈ names) :
    (names.filter fun x => passed.contains x).length = passed.length := by
  have hperm : List.Perm (names.filter fun x => passed.contains x) passed := by
    refine (List.perm_ext_iff_of_nodup (hnn.filter _) hpn).mpr ?_
    intro a
    simp only [List.mem_filter, List.elem_iff]
    constructor
    · rintro ⟨-, h⟩
      exact h
    · intro h
      exact ⟨hsub a h, h⟩
  exact hperm.length_eq

/-- **C4.** `parse_function_call` rejects a positional-argument surplus
with `TooManyArgsFunctionHas(params.len())`; a named argument matching
no parameter fails `UnknownFunctionParameter`; a named argument for a
parameter already bound (positionally or by an earlier named argument)
fails `BindingParameterASecondTime`; and when a parameter at or past the
positional prefix has no default and is not named, the call fails
`FunctionParameterNotBoundInCall`. -/
theorem c4_parse_function_call_errors (params : List Param)
    (posCount : Nat) (named : List String) :
    (params.length < posCount →
      parse_function_call params posCount named =
        .error (.TooManyArgsFunctionHas params.length)) ∧
    (∀ pre n rest passedMid, posCount ≤ params.length →
      named = pre ++ n :: rest →
      bindNamed params pre ((params.take posCount).map Param.name) =
        .ok passedMid →
      (∀ p ∈ params, p.name ≠ n) →
      parse_function_call params posCount named =
        .error (.UnknownFunctionParameter n)) ∧
    (∀ pre n rest passedMid, posCount ≤ params.length →
      named = pre ++ n :: rest →
      bindNamed params pre ((params.take posCount).map Param.name) =
        .ok passedMid →
      (∃ p ∈ params, p.name = n) → n ∈ passedMid →
      parse_function_call params posCount named =
        .error (.BindingParameterASecondTime n)) ∧
    ((params.map Param.name).Nodup → posCount ≤ params.length →
      ∀ passed,
        bindNamed params named ((params.take posCount).map Param.name) =
          .ok passed →
        (∃ p ∈ params.drop posCount,
          p.hasDefault = false ∧ p.name ∉ named) →
        ∃ m, parse_function_call params posCount named =
          .error (.FunctionParameterNotBoundInCall m)) := by
  refine ⟨?_, ?_, ?_, ?_⟩
  · intro h
    unfold parse_function_call
    rw [if_pos h]
  · intro pre n rest passedMid hpos hnamed hbnpre hn
    subst hnamed
    unfold parse_function_call
    rw [if_neg (not_lt.mpr hpos), bindNamed_append, hbnpre]
    dsimp only
    rw [bindNamed_unknown params n rest passedMid hn]
  · intro pre n rest passedMid hpos hnamed hbnpre hknown hmem
    subst hnamed
    unfold parse_function_call
    rw [if_neg (not_lt.mpr hpos), bindNamed_append, hbnpre]
    dsimp only
    rw [bindNamed_second_time params n rest passedMid hknown hmem]
  · intro hnodup hpos passed hbn hp
    obtain ⟨p, hpdrop, hpd, hpnamed⟩ := hp
    obtain ⟨hmem, hparam, hnd, hlen⟩ :=
      bindNamed_ok_facts params named _ passed hbn
    have hpassed0 : (params.take posCount).map Param.name =
        (params.map Param.name).take posCount := by
      rw [List.map_take]
    have hp0nodup : ((params.take posCount).map Param.name).Nodup := by
      rw [hpassed0]
      exact (List.take_sublist _ _).nodup hnodup
    have hpassednodup : passed.Nodup := hnd hp0nodup
    have hp0len : ((params.take posCount).map Param.name).length =
        posCount := by
      simp [List.length_take, Nat.min_eq_left hpos]
    have hpassedlen : passed.length = posCount + named.length := by
      rw [hlen, hp0len]
    have hsub : ∀ x ∈ passed, x ∈ params.map Param.name := by
      intro x hx
      rcases (hmem x).mp hx with hxn | hx0
      · obtain ⟨q, hq, hqn⟩ := hparam x hxn
        exact List.mem_map.mpr ⟨q, hq, hqn⟩
      · rw [hpassed0] at hx0
        exact (List.take_sublist _ _).subset hx0
    have hbound : (params.filter fun p =>
        passed.contains p.name).length = posCount + named.length := by
      rw [filter_name_map_length,
        names_filter_length _ _ hnodup hpassednodup hsub, hpassedlen]
    have hpparams : p ∈ params := (List.drop_sublist _ _).subset hpdrop
    have hpnameDrop : p.name ∈ (params.map Param.name).drop posCount := by
      rw [← List.map_drop]
      exact List.mem_map.mpr ⟨p, hpdrop, rfl⟩
    have hpnotpassed0 : p.name ∉ (params.map Param.name).take posCount := by
      intro hin
      have hsplit := List.take_append_drop posCount (params.map Param.name)
      rw [← hsplit] at hnodup
      have hdisj := (List.nodup_append.mp hnodup).2.2
      exact hdisj hin hpnameDrop
    have hpnotpassed : p.name ∉ passed := by
      intro hin
      rcases (hmem p.name).mp hin with hn | h0
      · exact hpnamed hn
      · rw [hpassed0] at h0
        exact hpnotpassed0 h0
    have hpthird : p ∈ params.filter fun p =>
        !p.hasDefault && !(passed.contains p.name) := by
      refine List.mem_filter.mpr ⟨hpparams, ?_⟩
      simp [hpd, List.elem_iff, hpnotpassed]
    have hthirdpos : 0 <
        (params.filter fun p =>
          !p.hasDefault && !(passed.contains p.name)).length :=
      List.length_pos_of_mem hpthird
    have hpart := length_filter_partition params
      (fun p => passed.contains p.name) (fun p => p.hasDefault)
    have houter : named.length + posCount < params.length := by omega
    have hneq : named.length + posCount +
        (params.filter fun p =>
          p.hasDefault && !(passed.contains p.name)).length ≠
        params.length := by omega
    have hfind : ∃ y, (params.drop posCount).find?
        (fun p => !(named.contains p.name)) = some y := by
      rw [← Option.isSome_iff_exists, List.find?_isSome]
      exact ⟨p, hpdrop, by simp [List.elem_iff, hpnamed]⟩
    obtain ⟨y, hy⟩ := hfind
    refine ⟨y.name, ?_⟩
    unfold parse_function_call
    rw [if_neg (not_lt.mpr hpos), hbn]
    dsimp only
    rw [if_pos houter, if_pos hneq, hy]

/-- Witness for C4: each of the four error behaviours at a concrete
call. -/
theorem c4_parse_function_call_errors_witness :
    parse_function_call [⟨"a", false⟩] 2 [] =
      .error (.TooManyArgsFunctionHas 1) ∧
    parse_function_call [⟨"a", false⟩] 0 ["z"] =
      .error (.UnknownFunctionParameter "z") ∧
    parse_function_call [⟨"a", false⟩] 1 ["a"] =
      .error (.BindingParameterASecondTime "a") ∧
    ∃ m, parse_function_call [⟨"a", false⟩] 0 [] =
      .error (.FunctionParameterNotBoundInCall m) := by
  refine ⟨?_, ?_, ?_, ?_⟩
  · exact (c4_parse_function_call_errors [⟨"a", false⟩] 2 []).1
      (by norm_num)
  · exact (c4_parse_function_call_errors [⟨"a", false⟩] 0 ["z"]).2.1
      [] "z" [] [] (by norm_num) rfl rfl (by decide)
  · exact (c4_parse_function_call_errors [⟨"a", false⟩] 1 ["a"]).2.2.1
      [] "a" [] ["a"] (by norm_num) rfl rfl (by decide) (by decide)
  · exact (c4_parse_function_call_errors [⟨"a", false⟩] 0 []).2.2.2
      (by decide) (by norm_num) [] rfl (by decide)

/-- Helper: on every non-stream format, `Val.manifest` agrees with the
non-stream dispatcher used inside the stream-element loop. -/
theorem manifest_eq_nonStream (v : Val) (f : ManifestFormat)
    (hf : f.isStream = false) :
    Val.manifest v f = manifestNonStream v f := by
  cases f with
  | yamlStream g => simp [ManifestFormat.isStream] at hf
  | yaml p => rfl
  | json p => rfl
  | toStringFormat => rfl
  | string => rfl

/-- Helper: a `Forall₂` over an appended left list splits the right
list accordingly. -/
theorem forall₂_append_split {α β : Type} {R : α → β → Prop} :
    ∀ (l1 l2 : List α) (l : List β), List.Forall₂ R (l1 ++ l2) l →
      ∃ p q, l = p ++ q ∧ List.Forall₂ R l1 p ∧ List.Forall₂ R l2 q := by
  intro l1
  induction l1 with
  | nil =>
    intro l2 l h
    exact ⟨[], l, rfl, .nil, h⟩
  | cons x t ih =>
    intro l2 l h
    cases h with
    | cons hx hrest =>
      obtain ⟨p, q, rfl, hp, hq⟩ := ih l2 _ hrest
      exact ⟨_ :: p, q, rfl, .cons hx hp, hq⟩

/-- Helper: folding the stream framing over a list with a non-empty
initial accumulator appends the accumulator. -/
theorem foldrStream_init (l : List String) (X : String) :
    l.foldr (fun s acc => "---\n" ++ s ++ "\n" ++ acc) X =
      l.foldr (fun s acc => "---\n" ++ s ++ "\n" ++ acc) "" ++ X := by
  induction l with
  | nil => simp
  | cons s t ih =>
    rw [List.foldr_cons, List.foldr_cons, ih, ← String.append_assoc]

/-- Helper: the stream-element loop over lazy cells whose forced
elements all manifest successfully. -/
theorem manifestStreamCells_forall (inner : ManifestFormat)
    (cells : List LazyValInternals) :
    ∀ ss : List String,
      List.Forall₂ (fun r s => ∃ w, r = .ok w ∧
        manifestNonStream w inner = .ok s)
        (cells.map LazyValInternals.evaluateRes) ss →
      manifestStreamCells cells inner =
        .ok (ss.foldr (fun s acc => "---\n" ++ s ++ "\n" ++ acc) "") := by
  induction cells with
  | nil =>
    intro ss h
    cases h
    rfl
  | cons c rest ih =>
    intro ss h
    rw [List.map_cons] at h
    cases h with
    | cons hr hrest =>
      obtain ⟨w, hw, hm⟩ := hr
      cases c with
      | Computed v =>
        obtain rfl : v = w := by
          simpa [LazyValInternals.evaluateRes, LazyValInternals.evaluate]
            using hw
        simp only [manifestStreamCells, hm, ih _ hrest]
        rfl
      | Errored e =>
        exact absurd hw (by
          simp [LazyValInternals.evaluateRes, LazyValInternals.evaluate])
      | Pending =>
        exact absurd hw (by
          simp [LazyValInternals.evaluateRes, LazyValInternals.evaluate])
      | Waiting g =>
        cases g with
        | ok v =>
          obtain rfl : v = w := by
            simpa [LazyValInternals.evaluateRes, LazyValInternals.evaluate,
              ProducerResult.run] using hw
          simp only [manifestStreamCells, hm, ih _ hrest]
          rfl
        | err e =>
          exact absurd hw (by
            simp [LazyValInternals.evaluateRes, LazyValInternals.evaluate,
              ProducerResult.run])

/-- Helper: the stream-element loop over eager elements that all
manifest successfully. -/
theorem manifestStreamVals_forall (inner : ManifestFormat)
    (vs : List Val) :
    ∀ ss : List String,
      List.Forall₂ (fun r s => ∃ w, r = .ok w ∧
        manifestNonStream w inner = .ok s)
        (vs.map Except.ok : List (Except Error Val)) ss →
      manifestStreamVals vs inner =
        .ok (ss.foldr (fun s acc => "---\n" ++ s ++ "\n" ++ acc) "") := by
  induction vs with
  | nil =>
    intro ss h
    cases h
    rfl
  | cons v rest ih =>
    intro ss h
    rw [List.map_cons] at h
    cases h with
    | cons hr hrest =>
      obtain ⟨w, hw, hm⟩ := hr
      obtain rfl : v = w := by simpa using hw
      simp only [manifestStreamVals, hm, ih _ hrest]
      rfl

/-- Helper: the stream-element loop over any array shape whose forced
elements all manifest successfully emits the `---`/newline framing of
each element in order. -/
theorem manifestStreamItems_forall (inner : ManifestFormat) :
    ∀ (a : ArrValue) (ss : List String),
      List.Forall₂ (fun r s => ∃ w, r = .ok w ∧
        manifestNonStream w inner = .ok s) a.iterResults ss →
      manifestStreamItems a inner =
        .ok (ss.foldr (fun s acc => "---\n" ++ s ++ "\n" ++ acc) "")
  | .lazy cells, ss, h =>
    manifestStreamCells_forall inner cells ss
      (by simpa [ArrValue.iterResults] using h)
  | .eager vs, ss, h =>
    manifestStreamVals_forall inner vs ss
      (by simpa [ArrValue.iterResults] using h)
  | .extended a b, ss, h => by
    have h' := forall₂_append_split a.iterResults b.iterResults ss
      (by simpa [ArrValue.iterResults] using h)
    obtain ⟨p, q, rfl, hp, hq⟩ := h'
    have ha := manifestStreamItems_forall inner a p hp
    have hb := manifestStreamItems_forall inner b q hq
    simp only [manifestStreamItems, ha, hb]
    rw [List.foldr_append,
      foldrStream_init p
        (List.foldr (fun s acc => "---\n" ++ s ++ "\n" ++ acc) "" q)]
    rfl

/-- **C8, counterexample.** Manifesting the empty array as a YAML
stream produces the empty string: the claimed final `...` line is not
emitted for every array. -/
theorem c8_counterexample :
    Val.manifest (.arr (.eager [])) (.yamlStream (.json 0)) = .ok "" ∧
    ("" : String) ≠ "..." := by
  exact ⟨rfl, by decide⟩

/-- **C8, amended.** Manifesting with `YamlStream(inner)`: a non-array
fails `StreamManifestOutputIsNotAArray`; an inner `YamlStream` fails
`StreamManifestOutputCannotBeRecursed` and an inner `String` fails
`StreamManifestCannotNestString`; a *non-empty* array of any shape
(lazy, eager, or concatenation) whose forced elements manifest to the
strings `ss` emits `---\n` before each element's manifestation, a
newline after each, and a final `...` (no trailing newline), while an
empty array of any shape emits nothing. -/
theorem c8_yaml_stream_manifest (v : Val) (a : ArrValue)
    (inner f : ManifestFormat) (ss : List String) :
    ((∀ x, v ≠ .arr x) →
      Val.manifest v (.yamlStream inner) =
        .error .StreamManifestOutputIsNotAArray) ∧
    (Val.manifest (.arr a) (.yamlStream (.yamlStream f)) =
      .error .StreamManifestOutputCannotBeRecursed) ∧
    (Val.manifest (.arr a) (.yamlStream .string) =
      .error .StreamManifestCannotNestString) ∧
    (inner.isStream = false → inner.isString = false →
      List.Forall₂ (fun r s => ∃ w, r = .ok w ∧
        Val.manifest w inner = .ok s) a.iterResults ss →
      a.len ≠ 0 →
      Val.manifest (.arr a) (.yamlStream inner) =
        .ok (ss.foldr (fun s acc => "---\n" ++ s ++ "\n" ++ acc) "" ++
          "...")) ∧
    (inner.isStream = false → inner.isString = false → a.len = 0 →
      Val.manifest (.arr a) (.yamlStream inner) = .ok "") := by
  refine ⟨?_, rfl, rfl, ?_, ?_⟩
  · intro h
    cases v with
    | arr x => exact absurd rfl (h x)
    | bool b => rfl
    | null => rfl
    | str s => rfl
    | num n => rfl
    | obj fs => rfl
    | func n => rfl
  · intro hs hstr hf hlen
    have hf' : List.Forall₂ (fun r s => ∃ w, r = .ok w ∧
        manifestNonStream w inner = .ok s) a.iterResults ss := by
      refine hf.imp ?_
      intro r t hr
      obtain ⟨w, hw, hm⟩ := hr
      rw [manifest_eq_nonStream w inner hs] at hm
      exact ⟨w, hw, hm⟩
    have hitems := manifestStreamItems_forall inner a ss hf'
    cases inner with
    | yamlStream g => simp [ManifestFormat.isStream] at hs
    | string => simp [ManifestFormat.isString] at hstr
    | yaml p =>
      simp only [Val.manifest, if_neg hlen, hitems]
      rfl
    | json p =>
      simp only [Val.manifest, if_neg hlen, hitems]
      rfl
    | toStringFormat =>
      simp only [Val.manifest, if_neg hlen, hitems]
      rfl
  · intro hs hstr hlen
    cases inner with
    | yamlStream g => simp [ManifestFormat.isStream] at hs
    | string => simp [ManifestFormat.isString] at hstr
    | yaml p => simp only [Val.manifest, if_pos hlen]
    | json p => simp only [Val.manifest, if_pos hlen]
    | toStringFormat => simp only [Val.manifest, if_pos hlen]

/-- Witness for C8: each stream behaviour at a concrete input; the
non-empty case uses a concatenation of a lazy and an eager part, and
the empty case a lazy array. -/
theorem c8_yaml_stream_manifest_witness :
    Val.manifest .null (.yamlStream (.json 0)) =
      .error .StreamManifestOutputIsNotAArray ∧
    Val.manifest (.arr (.eager [])) (.yamlStream (.yamlStream (.json 0))) =
      .error .StreamManifestOutputCannotBeRecursed ∧
    Val.manifest (.arr (.eager [])) (.yamlStream .string) =
      .error .StreamManifestCannotNestString ∧
    Val.manifest
        (.arr (.extended (.lazy [.Waiting (.ok .null)])
          (.eager [.bool true])))
        (.yamlStream (.json 0)) =
      .ok (["null", "true"].foldr
        (fun s acc => "---\n" ++ s ++ "\n" ++ acc) "" ++ "...") ∧
    Val.manifest (.arr (.lazy [])) (.yamlStream (.json 0)) = .ok "" := by
  have hA := c8_yaml_stream_manifest .null (.eager []) (.json 0) (.json 0) []
  have hB := c8_yaml_stream_manifest .null
    (.extended (.lazy [.Waiting (.ok .null)]) (.eager [.bool true]))
    (.json 0) (.json 0) ["null", "true"]
  have hC := c8_yaml_stream_manifest .null (.lazy []) (.json 0) (.json 0) []
  refine ⟨hA.1 (fun x h => Val.noConfusion h), hA.2.1, hA.2.2.1, ?_, ?_⟩
  · exact hB.2.2.2.1 rfl rfl
      (.cons ⟨.null, rfl, rfl⟩ (.cons ⟨.bool true, rfl, rfl⟩ .nil))
      (by decide)
  · exact hC.2.2.2.2 rfl rfl rfl
